import Mathlib

/-!
Verification of the audit-logged mutation pipeline of the admin-rod
repository: the audit recorder, interceptor and reader of
`src/server/src/middleware/audit.ts`, the login route of
`src/server/src/routes/auth.ts`, the diff computations of the
character and item update handlers, and the route wiring.

JavaScript strings are modelled by Lean `String`; comparison and
splitting are re-implemented structurally over `List Char` so that all
definitions evaluate by `decide`/`rfl`.  JavaScript runtime values
appearing in audit entries are modelled by `JsonValue`; `JSON.parse`
and `JSON.stringify` (library functions, not repository code) are
abstract parameters.  File-system effects are modelled by an explicit
world state (`FsWorld`) threaded through the functions, with a
`Faults` record saying which primitive I/O operations raise.
-/

/-- A JavaScript value as it occurs in audit entries: string, number,
boolean, null, or the route-params object passed by the middleware. -/
inductive JsonValue where
  | str (s : String)
  | num (n : Int)
  | bool (b : Bool)
  | null
  | params (ps : List (String × String))
deriving DecidableEq

/-- The `target` object of an audit entry (`audit.ts`, `AuditLogEntry`). -/
structure Target where
  type : String
  id : String
  name : Option String := none
deriving DecidableEq

/-- The `AuditLogEntry` interface of `audit.ts`.  A `changes` value maps a
field name to its `from`/`to` pair; `from` is `Option` because JavaScript
may put `undefined` there. -/
structure AuditLogEntry where
  timestamp : String
  action : String
  admin : String
  target : Option Target := none
  changes : Option (List (String × Option JsonValue × JsonValue)) := none
  metadata : Option (List (String × JsonValue)) := none
  ip : String
  userAgent : Option String := none
deriving DecidableEq

/-- The `options` argument of `logAuditAction`. -/
structure AuditOptions where
  target : Option Target := none
  changes : Option (List (String × Option JsonValue × JsonValue)) := none
  metadata : Option (List (String × JsonValue)) := none
  ip : Option String := none
  userAgent : Option String := none
deriving DecidableEq

/-- `a || b` on an optional JavaScript string: `a` unless it is absent or
empty (falsy), else `b`. -/
def jsOr (o : Option String) (d : String) : String :=
  match o with
  | some s => if s = "" then d else s
  | none => d

/-- Code-unit comparison of two character lists, as JavaScript compares
strings. -/
def cmpChars : List Char → List Char → Ordering
  | [], [] => Ordering.eq
  | [], _ :: _ => Ordering.lt
  | _ :: _, [] => Ordering.gt
  | a :: as, b :: bs =>
    if a.toNat < b.toNat then Ordering.lt
    else if b.toNat < a.toNat then Ordering.gt
    else cmpChars as bs

/-- Whitespace characters removed by `String.prototype.trim`. -/
def isWs (c : Char) : Bool :=
  c = ' ' || c = '\n' || c = '\t' || c = '\r'

/-- `content.trim()` on the character list. -/
def trimChars (cs : List Char) : List Char :=
  ((cs.dropWhile isWs).reverse.dropWhile isWs).reverse

/-- `content.split('\n')` on the character list. -/
def splitNl : List Char → List (List Char)
  | [] => [[]]
  | c :: cs =>
    if c = '\n' then [] :: splitNl cs
    else
      match splitNl cs with
      | [] => [[c]]
      | l :: ls => (c :: l) :: ls

/-- `content.trim().split('\n').filter(Boolean)` from `readAuditLogs`. -/
def nonemptyLines (content : String) : List String :=
  ((splitNl (trimChars content.data)).filter (fun l => l ≠ [])).map String.mk

/-- `p.startsWith(q)` over character lists. -/
def startsWithChars : List Char → List Char → Bool
  | [], _ => true
  | _ :: _, [] => false
  | p :: ps, c :: cs => p = c && startsWithChars ps cs

/-- `p.endsWith(q)` over character lists. -/
def endsWithChars (p cs : List Char) : Bool :=
  startsWithChars p.reverse cs.reverse

/-- The file-system world visible to the audit code: whether the log
directory exists, the files (name, content) in write order, and the
process console output. -/
structure FsWorld where
  dirExists : Bool
  files : List (String × String)
  console : List String
deriving DecidableEq

/-- Which primitive file operations raise an I/O error. -/
structure Faults where
  mkdirFault : Bool := false
  appendFault : Bool := false
deriving DecidableEq

/-- `fs.appendFileSync`: append `line` to file `name`, creating it if absent. -/
def fileAppend : List (String × String) → String → String → List (String × String)
  | [], name, line => [(name, line)]
  | (n, c) :: rest, name, line =>
    if n = name then (n, c ++ line) :: rest
    else (n, c) :: fileAppend rest name line

/-- `new Date().toISOString().split('T')[0]`: the date part of an ISO instant. -/
def datePart (now : String) : String :=
  String.mk (now.data.takeWhile (fun c => c ≠ 'T'))

/-- `getLogFilePath` of `audit.ts`: the log file name of the current day. -/
def getLogFileName (now : String) : String :=
  "audit-" ++ datePart now ++ ".json"

/-- `logAuditAction` builds this entry from its arguments (`audit.ts` lines
66-75); `ip` defaults to "unknown" when absent or empty. -/
def mkAuditEntry (now admin action : String) (options : Option AuditOptions) :
    AuditLogEntry :=
  { timestamp := now
    action := action
    admin := admin
    target := options.bind (fun o => o.target)
    changes := options.bind (fun o => o.changes)
    metadata := options.bind (fun o => o.metadata)
    ip := jsOr (options.bind (fun o => o.ip)) "unknown"
    userAgent := options.bind (fun o => o.userAgent) }

/-- The `console.log` line of `logAuditAction` (`audit.ts` line 80). -/
def consoleLine (admin action : String) (options : Option AuditOptions) : String :=
  "[Audit] " ++ admin ++ " performed " ++ action ++ " " ++
    (match options.bind (fun o => o.target) with
     | some t => "on " ++ t.type ++ ":" ++ t.id
     | none => "")

/-- `appendToLog` of `audit.ts`: a no-op unless `AUDIT_LOG_ENABLED` equals
"true"; otherwise it runs `ensureLogDir` and `fs.appendFileSync` inside a
try/catch whose handler writes a console error and returns normally.
`ser` abstracts `JSON.stringify`. -/
def appendToLog (enabled : Option String) (ser : AuditLogEntry → String)
    (faults : Faults) (now : String) (entry : AuditLogEntry) (w : FsWorld) :
    FsWorld :=
  if enabled ≠ some "true" then w
  else
    if !w.dirExists && faults.mkdirFault then
      { w with console := w.console ++ ["[Audit] Failed to write log: mkdir"] }
    else
      let w1 : FsWorld := { w with dirExists := true }
      if faults.appendFault then
        { w1 with console := w1.console ++ ["[Audit] Failed to write log: append"] }
      else
        { w1 with
          files := fileAppend w1.files (getLogFileName now) (ser entry ++ "\n") }

/-- `logAuditAction` of `audit.ts`: build the entry, append it to the log,
then always write the human-readable console line. -/
def logAuditAction (enabled : Option String) (ser : AuditLogEntry → String)
    (faults : Faults) (now : String) (admin action : String)
    (options : Option AuditOptions) (w : FsWorld) : FsWorld :=
  let entry := mkAuditEntry now admin action options
  let w1 := appendToLog enabled ser faults now entry w
  { w1 with console := w1.console ++ [consoleLine admin action options] }

/-- The request data the audit middleware inspects. -/
structure Req where
  method : String
  path : String
  params : List (String × String)
  admin : Option String
  ip : Option String
  remoteAddress : Option String
  userAgent : Option String
deriving DecidableEq

/-- The mutating methods checked by `auditMiddleware` (`audit.ts` line 90). -/
def mutatingMethods : List String := ["POST", "PUT", "PATCH", "DELETE"]

/-- The options literal `auditMiddleware` passes to `logAuditAction`
(`audit.ts` lines 95-103). -/
def auditMwOptions (req : Req) (statusCode : Nat) : AuditOptions :=
  { metadata := some
      [("path", JsonValue.str req.path),
       ("params", JsonValue.params req.params),
       ("statusCode", JsonValue.num statusCode)]
    ip := some (jsOr req.ip (jsOr req.remoteAddress "unknown"))
    userAgent := req.userAgent }

/-- The wrapped `res.send` installed by `auditMiddleware actionLabel`: at
response-emission time, with the final status code in hand, it records the
action iff the method is mutating and the status is below 400. -/
def auditMiddlewareOnSend (actionLabel : String) (req : Req) (statusCode : Nat)
    (enabled : Option String) (ser : AuditLogEntry → String) (faults : Faults)
    (now : String) (w : FsWorld) : FsWorld :=
  if req.method ∈ mutatingMethods ∧ statusCode < 400 then
    logAuditAction enabled ser faults now
      (jsOr req.admin "unknown")
      (actionLabel ++ "_" ++ req.method)
      (some (auditMwOptions req statusCode)) w
  else w

/-- The regex `audit-(\d{4}-\d{2}-\d{2})\.json` matched at the head of the
character list: the captured date and nothing else on failure. -/
def matchAuditAt (cs : List Char) : Option (List Char) :=
  match cs with
  | 'a' :: 'u' :: 'd' :: 'i' :: 't' :: '-' ::
      y1 :: y2 :: y3 :: y4 :: h1 :: m1 :: m2 :: h2 :: d1 :: d2 ::
      '.' :: 'j' :: 's' :: 'o' :: 'n' :: _ =>
    if y1.isDigit && y2.isDigit && y3.isDigit && y4.isDigit && h1 = '-' &&
       m1.isDigit && m2.isDigit && h2 = '-' && d1.isDigit && d2.isDigit then
      some [y1, y2, y3, y4, '-', m1, m2, '-', d1, d2]
    else none
  | _ => none

/-- `file.match(regex)`: the first occurrence of the audit-date pattern in
the file name, as JavaScript regex search scans left to right. -/
def firstAuditDate : List Char → Option String
  | [] => none
  | c :: cs =>
    match matchAuditAt (c :: cs) with
    | some d => some (String.mk d)
    | none => firstAuditDate cs

/-- The filename filter of `readAuditLogs` (`audit.ts` line 122). -/
def matchesAuditName (name : String) : Bool :=
  startsWithChars "audit-".data name.data && endsWithChars ".json".data name.data

/-- The date-range filter of `readAuditLogs` (`audit.ts` lines 133-134):
skip when a truthy `startDate` exceeds the file date or a truthy `endDate`
is below it. -/
def inRange (startD endD : Option String) (fileDate : String) : Bool :=
  (match startD with
   | some s => !(s ≠ "" && (cmpChars fileDate.data s.data == Ordering.lt))
   | none => true) &&
  (match endD with
   | some e => !(e ≠ "" && (cmpChars fileDate.data e.data == Ordering.gt))
   | none => true)

/-- The per-file line loop of `readAuditLogs` (lines 139-147): the entries
of the lines that parse, and a console warning per line that does not.
`parse` abstracts `JSON.parse`. -/
def parseLines (parse : String → Option AuditLogEntry) (content : String) :
    List AuditLogEntry × List String :=
  ((nonemptyLines content).filterMap parse,
   ((nonemptyLines content).filter (fun l => (parse l).isNone)).map
     (fun l => "[Audit] Failed to parse log line: " ++ l))

/-- Whether `readAuditLogs` includes the file: name filter, regex match,
date range. -/
def includedB (startD endD : Option String) (name : String) : Bool :=
  matchesAuditName name &&
    (match firstAuditDate name.data with
     | some d => inRange startD endD d
     | none => false)

/-- The file loop of `readAuditLogs` (lines 126-147).  The content of a file is
`Except.error` when `fs.readFileSync` raises; the read of an included file
is not guarded by any try/catch, so such an error propagates and aborts
the loop. -/
def collectFiles (parse : String → Option AuditLogEntry)
    (startD endD : Option String) :
    List (String × Except String String) →
    Except String (List AuditLogEntry × List String)
  | [] => Except.ok ([], [])
  | (name, content) :: rest =>
    if includedB startD endD name then
      match content with
      | Except.error msg => Except.error msg
      | Except.ok body =>
        match collectFiles parse startD endD rest with
        | Except.error msg => Except.error msg
        | Except.ok (es, ws) =>
          Except.ok ((parseLines parse body).1 ++ es,
                     (parseLines parse body).2 ++ ws)
    else collectFiles parse startD endD rest

/-- The descending-timestamp order of the final sort (`audit.ts` line 149,
comparator `b.timestamp.localeCompare(a.timestamp)`): `a` may precede `b`
iff `a.timestamp` is not below `b.timestamp`. -/
def descByTs (a b : AuditLogEntry) : Bool :=
  !(cmpChars a.timestamp.data b.timestamp.data == Ordering.lt)

/-- Insert into a descending-sorted list after all entries that may precede
the new one (a stable insertion, as ECMAScript `Array.prototype.sort`
is stable). -/
def insertDesc (x : AuditLogEntry) : List AuditLogEntry → List AuditLogEntry
  | [] => [x]
  | y :: ys => if descByTs y x then y :: insertDesc x ys else x :: y :: ys

/-- `entries.sort((a, b) => b.timestamp.localeCompare(a.timestamp))`. -/
def sortDescTs : List AuditLogEntry → List AuditLogEntry
  | [] => []
  | x :: xs => insertDesc x (sortDescTs xs)

/-- `readAuditLogs` of `audit.ts`: collect the entries (and warnings) of the
included files, then sort the entries descending by timestamp.  Any
uncaught file-read error propagates. -/
def readAuditLogs (parse : String → Option AuditLogEntry)
    (files : List (String × Except String String))
    (startD endD : Option String) :
    Except String (List AuditLogEntry × List String) :=
  match collectFiles parse startD endD files with
  | Except.error msg => Except.error msg
  | Except.ok (es, ws) => Except.ok (sortDescTs es, ws)

/-- The entries the spec says the reader returns: the successfully parsed
lines of every readable daily file whose embedded date is in range. -/
def specEntries (parse : String → Option AuditLogEntry)
    (startD endD : Option String)
    (files : List (String × Except String String)) : List AuditLogEntry :=
  files.flatMap (fun fc =>
    if includedB startD endD fc.1 then
      match fc.2 with
      | Except.ok body => (parseLines parse body).1
      | Except.error _ => []
    else [])

/-- The response of `POST /auth/login` (`auth.ts` routes): 400 on missing
credentials, 401 on failed validation, otherwise the token and the user
object for the username. -/
inductive LoginRes where
  | badRequest
  | unauthorized
  | success (token : String) (username : String)
deriving DecidableEq

/-- The login request body and origin. -/
structure LoginReq where
  username : Option String
  password : Option String
  ip : Option String
deriving DecidableEq

/-- The `POST /login` handler of `src/server/src/routes/auth.ts`.
`validate` abstracts `validateAdminCredentials` and `gen` abstracts
`generateToken` (their sources live in `middleware/auth.ts`, outside the
provided tree); the control flow of the handler itself is modelled from the route
source. -/
def loginHandler (validate : String → String → Bool) (gen : String → String)
    (enabled : Option String) (ser : AuditLogEntry → String) (faults : Faults)
    (now : String) (req : LoginReq) (w : FsWorld) : LoginRes × FsWorld :=
  match req.username, req.password with
  | some u, some p =>
    if u = "" || p = "" then (LoginRes.badRequest, w)
    else if validate u p then
      let w1 := logAuditAction enabled ser faults now u "LOGIN_SUCCESS"
        (some { ip := some (jsOr req.ip "unknown") }) w
      (LoginRes.success (gen u) u, w1)
    else
      let w1 := logAuditAction enabled ser faults now "anonymous" "LOGIN_FAILED"
        (some { metadata := some [("username", JsonValue.str u)],
                ip := some (jsOr req.ip "unknown") }) w
      (LoginRes.unauthorized, w1)
  | _, _ => (LoginRes.badRequest, w)

/-- Modelled from the spec: the Auth Gate (`authMiddleware` of
`middleware/auth.ts`, not among the provided sources).  Per spec 4.3 it
extracts a token, verifies it and attaches the identity, with no side
effect on the audit trail: "it does not itself log successful auths". -/
def authGate (verify : String → Option String) (token : Option String)
    (w : FsWorld) : Option String × FsWorld :=
  match token with
  | none => (none, w)
  | some t => (verify t, w)

/-- A stored character row, with the columns touched by the PATCH
`/characters/:id` handler. -/
structure CharacterRow where
  name : String
  level : Int
  experience : Int
  gold : Int
  coins : Int
  honor : Int
  stamina : Int
  health : Int
  isPremium : Bool
deriving DecidableEq

/-- The `current` record the handler fetches before updating (its `select`
lists name, level, gold, coins, honor, stamina, health, isPremium — not
experience, so `current["experience"]` is `undefined`). -/
def fetchedCurrent (c : CharacterRow) (k : String) : Option JsonValue :=
  if k = "name" then some (JsonValue.str c.name)
  else if k = "level" then some (JsonValue.num c.level)
  else if k = "gold" then some (JsonValue.num c.gold)
  else if k = "coins" then some (JsonValue.num c.coins)
  else if k = "honor" then some (JsonValue.num c.honor)
  else if k = "stamina" then some (JsonValue.num c.stamina)
  else if k = "health" then some (JsonValue.num c.health)
  else if k = "isPremium" then some (JsonValue.bool c.isPremium)
  else none

/-- The value actually stored in the row for a field name — the "current
stored value" the claim speaks of, including `experience`. -/
def storedField (c : CharacterRow) (k : String) : Option JsonValue :=
  if k = "name" then some (JsonValue.str c.name)
  else if k = "level" then some (JsonValue.num c.level)
  else if k = "gold" then some (JsonValue.num c.gold)
  else if k = "coins" then some (JsonValue.num c.coins)
  else if k = "honor" then some (JsonValue.num c.honor)
  else if k = "stamina" then some (JsonValue.num c.stamina)
  else if k = "health" then some (JsonValue.num c.health)
  else if k = "isPremium" then some (JsonValue.bool c.isPremium)
  else if k = "experience" then some (JsonValue.num c.experience)
  else none

/-- The keys `updateCharacterSchema` accepts. -/
def updatableKeys : List String :=
  ["level", "experience", "gold", "coins", "honor", "stamina", "health",
   "isPremium"]

/-- The changes loop of the PATCH `/characters/:id` handler: for each
supplied key whose value differs (JavaScript `!==`) from the fetched
current value, record a from/to pair.  `data` is the defined-key list of
the parsed body. -/
def computeChanges (current : String → Option JsonValue)
    (data : List (String × JsonValue)) :
    List (String × Option JsonValue × JsonValue) :=
  data.filterMap (fun kv =>
    if current kv.1 ≠ some kv.2 then some (kv.1, current kv.1, kv.2) else none)

/-- The changes expression of the PATCH `/items/:id` handler
(`src/server/src/routes/items.ts` line 168): every supplied key mapped to
`from` set to the constant "N/A" unconditionally. -/
def itemChanges (data : List (String × JsonValue)) :
    List (String × Option JsonValue × JsonValue) :=
  data.map (fun kv => (kv.1, some (JsonValue.str "N/A"), kv.2))

/-- A middleware reference as it appears in the route wiring. -/
inductive MW where
  | auth
  | audit (label : String)
deriving DecidableEq

/-- The route registrations of `routes/index.ts`: mount point paired with
the middlewares attached in front of the handler. -/
def routerWiring : List (String × List MW) :=
  [("/auth", []),
   ("/auth/me", [MW.auth]),
   ("/health", []),
   ("/dashboard", [MW.auth]),
   ("/users", [MW.auth]),
   ("/characters", [MW.auth]),
   ("/guilds", [MW.auth]),
   ("/items", [MW.auth]),
   ("/transactions", [MW.auth]),
   ("/arena", [MW.auth]),
   ("/audit-logs", [MW.auth]),
   ("/system/broadcast", [MW.auth])]

theorem cmpChars_swap (a : List Char) : ∀ b, cmpChars b a = (cmpChars a b).swap := by
  induction a with
  | nil => intro b; cases b <;> rfl
  | cons x xs ih =>
    intro b
    cases b with
    | nil => rfl
    | cons y ys =>
      simp only [cmpChars]
      rcases Nat.lt_trichotomy x.toNat y.toNat with h | h | h
      · rw [if_neg (by omega), if_pos h, if_pos h]; rfl
      · rw [if_neg (by omega), if_neg (by omega), if_neg (by omega),
          if_neg (by omega)]
        exact ih ys
      · rw [if_pos h, if_neg (by omega), if_pos h]; rfl

theorem cmpChars_not_lt_trans : ∀ (a b c : List Char),
    cmpChars a b ≠ Ordering.lt → cmpChars b c ≠ Ordering.lt →
    cmpChars a c ≠ Ordering.lt
  | [], b, c, hab, hbc => by
    cases b with
    | nil =>
      cases c with
      | nil => simp [cmpChars]
      | cons z zs => simp [cmpChars] at hbc
    | cons y ys => simp [cmpChars] at hab
  | x :: xs, b, c, hab, hbc => by
    cases b with
    | nil =>
      cases c with
      | nil => simp [cmpChars]
      | cons z zs => simp [cmpChars] at hbc
    | cons y ys =>
      cases c with
      | nil => simp [cmpChars]
      | cons z zs =>
        have h1 : ¬ x.toNat < y.toNat := fun h => hab (by simp [cmpChars, h])
        have h2 : ¬ y.toNat < z.toNat := fun h => hbc (by simp [cmpChars, h])
        have h3 : ¬ x.toNat < z.toNat := by omega
        by_cases h4 : z.toNat < x.toNat
        · simp [cmpChars, h3, h4]
        · have hyx : ¬ y.toNat < x.toNat := by omega
          have hzy : ¬ z.toNat < y.toNat := by omega
          have hab2 : cmpChars xs ys ≠ Ordering.lt := by
            simpa [cmpChars, h1, hyx] using hab
          have hbc2 : cmpChars ys zs ≠ Ordering.lt := by
            simpa [cmpChars, h2, hzy] using hbc
          simpa [cmpChars, h3, h4] using
            cmpChars_not_lt_trans xs ys zs hab2 hbc2

theorem descByTs_iff (a b : AuditLogEntry) :
    descByTs a b = true ↔
      cmpChars a.timestamp.data b.timestamp.data ≠ Ordering.lt := by
  cases h : cmpChars a.timestamp.data b.timestamp.data <;>
    simp [descByTs, h] <;> decide

theorem descByTs_total (a b : AuditLogEntry) :
    descByTs a b = true ∨ descByTs b a = true := by
  by_cases h : cmpChars a.timestamp.data b.timestamp.data = Ordering.lt
  · right
    rw [descByTs_iff, cmpChars_swap a.timestamp.data b.timestamp.data, h]
    decide
  · left
    exact (descByTs_iff a b).mpr h

theorem descByTs_trans (a b c : AuditLogEntry) (h1 : descByTs a b = true)
    (h2 : descByTs b c = true) : descByTs a c = true :=
  (descByTs_iff a c).mpr
    (cmpChars_not_lt_trans _ _ _ ((descByTs_iff a b).mp h1)
      ((descByTs_iff b c).mp h2))

theorem insertDesc_perm (x : AuditLogEntry) (l : List AuditLogEntry) :
    (insertDesc x l).Perm (x :: l) := by
  induction l with
  | nil => simp [insertDesc]
  | cons y ys ih =>
    simp only [insertDesc]
    split_ifs with h
    · exact (ih.cons y).trans (List.Perm.swap x y ys)
    · exact List.Perm.refl _

theorem sortDescTs_perm (l : List AuditLogEntry) : (sortDescTs l).Perm l := by
  induction l with
  | nil => simp [sortDescTs]
  | cons x xs ih =>
    simpa [sortDescTs] using (insertDesc_perm x (sortDescTs xs)).trans (ih.cons x)

theorem pairwise_insertDesc (x : AuditLogEntry) (l : List AuditLogEntry)
    (hl : l.Pairwise (fun a b => descByTs a b = true)) :
    (insertDesc x l).Pairwise (fun a b => descByTs a b = true) := by
  induction l with
  | nil => simp [insertDesc]
  | cons y ys ih =>
    rcases List.pairwise_cons.mp hl with ⟨hy, hys⟩
    simp only [insertDesc]
    split_ifs with h
    · refine List.pairwise_cons.mpr ⟨?_, ih hys⟩
      intro z hz
      have hz2 := (insertDesc_perm x ys).mem_iff.mp hz
      rcases List.mem_cons.mp hz2 with rfl | hz3
      · exact h
      · exact hy z hz3
    · have hxy : descByTs x y = true := by
        rcases descByTs_total x y with h2 | h2
        · exact h2
        · exact absurd h2 h
      refine List.pairwise_cons.mpr ⟨?_, hl⟩
      intro z hz
      rcases List.mem_cons.mp hz with rfl | hz2
      · exact hxy
      · exact descByTs_trans x y z hxy (hy z hz2)

theorem sortDescTs_sorted (l : List AuditLogEntry) :
    (sortDescTs l).Pairwise (fun a b => descByTs a b = true) := by
  induction l with
  | nil => simp [sortDescTs]
  | cons x xs ih => exact pairwise_insertDesc x _ ih

theorem specEntries_cons (parse : String → Option AuditLogEntry)
    (startD endD : Option String) (fc : String × Except String String)
    (rest : List (String × Except String String)) :
    specEntries parse startD endD (fc :: rest) =
      (if includedB startD endD fc.1 then
        (match fc.2 with
         | Except.ok body => (parseLines parse body).1
         | Except.error _ => [])
       else []) ++ specEntries parse startD endD rest := by
  simp [specEntries]

theorem collectFiles_ok_fst (parse : String → Option AuditLogEntry)
    (startD endD : Option String) :
    ∀ (files : List (String × Except String String))
      (es : List AuditLogEntry) (ws : List String),
      collectFiles parse startD endD files = Except.ok (es, ws) →
      es = specEntries parse startD endD files := by
  intro files
  induction files with
  | nil =>
    intro es ws h
    simp only [collectFiles, Except.ok.injEq, Prod.mk.injEq] at h
    simp [specEntries, ← h.1]
  | cons fc rest ih =>
    intro es ws h
    obtain ⟨name, content⟩ := fc
    simp only [collectFiles] at h
    by_cases hinc : includedB startD endD name = true
    · rw [if_pos hinc] at h
      cases content with
      | error msg => simp at h
      | ok body =>
        cases hrec : collectFiles parse startD endD rest with
        | error msg => rw [hrec] at h; simp at h
        | ok p =>
          obtain ⟨es2, ws2⟩ := p
          rw [hrec] at h
          simp only [Except.ok.injEq, Prod.mk.injEq] at h
          rw [specEntries_cons]
          simp only [hinc, if_true]
          rw [← h.1, ih es2 ws2 hrec]
    · rw [if_neg hinc] at h
      rw [specEntries_cons]
      simp only [hinc, if_false]
      simpa using ih es ws h

/-- C1: a successful Audit Reader call returns a permutation of exactly the
successfully parsed entries of the daily log files whose filename-embedded
date lies in the inclusive range, sorted descending by the timestamp field
under string comparison, newest first across file boundaries. -/
theorem c1_reader_returns_range_sorted (parse : String → Option AuditLogEntry)
    (files : List (String × Except String String))
    (startD endD : Option String) (l : List AuditLogEntry) (ws : List String)
    (h : readAuditLogs parse files startD endD = Except.ok (l, ws)) :
    l.Perm (specEntries parse startD endD files) ∧
    l.Pairwise (fun a b => descByTs a b = true) := by
  unfold readAuditLogs at h
  cases hc : collectFiles parse startD endD files with
  | error msg => rw [hc] at h; simp at h
  | ok p =>
    obtain ⟨es, ws2⟩ := p
    rw [hc] at h
    simp only [Except.ok.injEq, Prod.mk.injEq] at h
    obtain ⟨h1, h2⟩ := h
    have hes := collectFiles_ok_fst parse startD endD files es ws2 hc
    subst hes
    rw [← h1]
    exact ⟨sortDescTs_perm _, sortDescTs_sorted _⟩

/-- An entry used by the concrete witnesses. -/
def entryA : AuditLogEntry :=
  { timestamp := "2024-01-01T10:00:00.000Z", action := "A_ACT",
    admin := "alice", ip := "unknown" }

/-- A second, newer entry used by the concrete witnesses. -/
def entryB : AuditLogEntry :=
  { timestamp := "2024-01-02T10:00:00.000Z", action := "B_ACT",
    admin := "bob", ip := "unknown" }

/-- A concrete stand-in for `JSON.parse` on two known lines. -/
def demoParse (s : String) : Option AuditLogEntry :=
  if s = "A" then some entryA else if s = "B" then some entryB else none

/-- A concrete log directory listing. -/
def demoFiles : List (String × Except String String) :=
  [("audit-2024-01-01.json", Except.ok "A\nB"), ("notes.txt", Except.ok "A")]

theorem c1_reader_returns_range_sorted_witness :
    ([entryB, entryA] : List AuditLogEntry).Perm
      (specEntries demoParse none none demoFiles) ∧
    ([entryB, entryA] : List AuditLogEntry).Pairwise
      (fun a b => descByTs a b = true) :=
  c1_reader_returns_range_sorted demoParse demoFiles none none
    [entryB, entryA] [] (by rfl)

/-- C2: with persistence enabled, an I/O failure of the directory creation
or of the file append is caught inside the recorder: the call returns
normally (it is a total function on the world), writes nothing to the log
files, reports the failure on the console, and still emits the
human-readable audit line. -/
theorem c2_recorder_swallows_io_error (ser : AuditLogEntry → String)
    (faults : Faults) (now admin action : String)
    (options : Option AuditOptions) (w : FsWorld)
    (hfault : faults.appendFault = true ∨
      (faults.mkdirFault = true ∧ w.dirExists = false)) :
    (logAuditAction (some "true") ser faults now admin action options w).files =
      w.files ∧
    ∃ m, (logAuditAction (some "true") ser faults now admin action options
        w).console =
      w.console ++ ["[Audit] Failed to write log: " ++ m,
                    consoleLine admin action options] := by
  simp only [logAuditAction, appendToLog]
  split_ifs with h1 h2 h3
  · simp at h1
  · exact ⟨rfl, "mkdir", by simp⟩
  · exact ⟨rfl, "append", by simp⟩
  · rcases hfault with hf | ⟨hm, hd⟩
    · simp [hf] at h3
    · simp [hm, hd] at h2

/-- A concrete serializer used by the witnesses. -/
def demoSer : AuditLogEntry → String := fun _ => "E"

/-- The concrete starting world used by the witnesses. -/
def demoWorld : FsWorld := { dirExists := true, files := [], console := [] }

theorem c2_recorder_swallows_io_error_witness :
    (logAuditAction (some "true") demoSer ⟨false, true⟩
        "2024-01-03T00:00:00.000Z" "alice" "TEST" none demoWorld).files =
      demoWorld.files ∧
    ∃ m, (logAuditAction (some "true") demoSer ⟨false, true⟩
        "2024-01-03T00:00:00.000Z" "alice" "TEST" none demoWorld).console =
      demoWorld.console ++ ["[Audit] Failed to write log: " ++ m,
                            consoleLine "alice" "TEST" none] :=
  c2_recorder_swallows_io_error demoSer ⟨false, true⟩
    "2024-01-03T00:00:00.000Z" "alice" "TEST" none demoWorld (Or.inl rfl)

/-- C3: when the `AUDIT_LOG_ENABLED` flag is not "true", the recorder
returns normally, leaves the directory and every file untouched, and still
emits exactly the same human-readable console line as an enabled,
fault-free call does. -/
theorem c3_disabled_persistence_console_only (enabled : Option String)
    (ser : AuditLogEntry → String) (faults : Faults)
    (now admin action : String) (options : Option AuditOptions) (w : FsWorld)
    (hen : enabled ≠ some "true") :
    logAuditAction enabled ser faults now admin action options w =
      { w with console := w.console ++ [consoleLine admin action options] } ∧
    (logAuditAction (some "true") ser ⟨false, false⟩ now admin action options
        w).console =
      w.console ++ [consoleLine admin action options] := by
  constructor
  · simp [logAuditAction, appendToLog, hen]
  · simp [logAuditAction, appendToLog]

theorem c3_disabled_persistence_console_only_witness :
    logAuditAction none demoSer ⟨false, false⟩ "2024-01-03T00:00:00.000Z"
        "alice" "TEST" none demoWorld =
      { demoWorld with
        console := demoWorld.console ++ [consoleLine "alice" "TEST" none] } ∧
    (logAuditAction (some "true") demoSer ⟨false, false⟩
        "2024-01-03T00:00:00.000Z" "alice" "TEST" none demoWorld).console =
      demoWorld.console ++ [consoleLine "alice" "TEST" none] :=
  c3_disabled_persistence_console_only none demoSer ⟨false, false⟩
    "2024-01-03T00:00:00.000Z" "alice" "TEST" none demoWorld (by simp)

/-- C4: the wrapped send of the interceptor records exactly when the method is
POST, PUT, PATCH or DELETE and the emission-time status code is below 400;
the recorded entry then carries action label_METHOD, the attached identity
or "unknown", and metadata with the path, the route params and the status
code.  Otherwise the world is untouched. -/
theorem c4_interceptor_mutating_success_only (actionLabel : String)
    (req : Req) (statusCode : Nat) (enabled : Option String)
    (ser : AuditLogEntry → String) (faults : Faults) (now : String)
    (w : FsWorld) :
    (req.method ∈ mutatingMethods → statusCode < 400 →
      auditMiddlewareOnSend actionLabel req statusCode enabled ser faults now
          w =
        logAuditAction enabled ser faults now (jsOr req.admin "unknown")
          (actionLabel ++ "_" ++ req.method)
          (some (auditMwOptions req statusCode)) w ∧
      (mkAuditEntry now (jsOr req.admin "unknown")
          (actionLabel ++ "_" ++ req.method)
          (some (auditMwOptions req statusCode))).action =
        actionLabel ++ "_" ++ req.method ∧
      (mkAuditEntry now (jsOr req.admin "unknown")
          (actionLabel ++ "_" ++ req.method)
          (some (auditMwOptions req statusCode))).admin =
        jsOr req.admin "unknown" ∧
      (mkAuditEntry now (jsOr req.admin "unknown")
          (actionLabel ++ "_" ++ req.method)
          (some (auditMwOptions req statusCode))).metadata =
        some [("path", JsonValue.str req.path),
              ("params", JsonValue.params req.params),
              ("statusCode", JsonValue.num statusCode)]) ∧
    (¬(req.method ∈ mutatingMethods ∧ statusCode < 400) →
      auditMiddlewareOnSend actionLabel req statusCode enabled ser faults now
          w = w) := by
  constructor
  · intro hm hs
    refine ⟨?_, rfl, rfl, rfl⟩
    rw [auditMiddlewareOnSend, if_pos ⟨hm, hs⟩]
  · intro hns
    rw [auditMiddlewareOnSend, if_neg hns]

/-- The concrete request used by the C4 witness. -/
def demoReq : Req :=
  { method := "POST", path := "/characters/abc", params := [("id", "abc")],
    admin := some "root", ip := some "9.9.9.9", remoteAddress := none,
    userAgent := some "UA" }

theorem c4_interceptor_mutating_success_only_witness :
    auditMiddlewareOnSend "CHARACTERS" demoReq 200 (some "true") demoSer
        ⟨false, false⟩ "2024-01-03T00:00:00.000Z" demoWorld =
      logAuditAction (some "true") demoSer ⟨false, false⟩
        "2024-01-03T00:00:00.000Z" (jsOr demoReq.admin "unknown")
        ("CHARACTERS" ++ "_" ++ demoReq.method)
        (some (auditMwOptions demoReq 200)) demoWorld :=
  ((c4_interceptor_mutating_success_only "CHARACTERS" demoReq 200
      (some "true") demoSer ⟨false, false⟩ "2024-01-03T00:00:00.000Z"
      demoWorld).1 (by decide) (by decide)).1

theorem filterMap_length_all_some (parse : String → Option AuditLogEntry) :
    ∀ l : List String, (∀ x ∈ l, (parse x).isSome) →
      (l.filterMap parse).length = l.length := by
  intro l
  induction l with
  | nil => intro _; rfl
  | cons x xs ih =>
    intro h
    obtain ⟨e, he⟩ := Option.isSome_iff_exists.mp (h x (List.mem_cons_self x xs))
    simp only [List.filterMap_cons, he, List.length_cons]
    rw [ih (fun y hy => h y (List.mem_cons_of_mem x hy))]

theorem filter_none_nil (parse : String → Option AuditLogEntry) :
    ∀ l : List String, (∀ x ∈ l, (parse x).isSome) →
      l.filter (fun x => (parse x).isNone) = [] := by
  intro l
  induction l with
  | nil => intro _; rfl
  | cons x xs ih =>
    intro h
    have hx := h x (List.mem_cons_self x xs)
    have hx2 : (parse x).isNone = false := by
      cases hpx : parse x
      · rw [hpx] at hx; simp at hx
      · rfl
    simp only [List.filter_cons, hx2, Bool.false_eq_true, if_false]
    exact ih (fun y hy => h y (List.mem_cons_of_mem x hy))

/-- C5: a log file whose nonempty lines are N well-formed lines around one
malformed line yields exactly N parsed entries and a single warning for the
malformed line; the read of that file raises nothing. -/
theorem c5_corrupt_line_tolerance (parse : String → Option AuditLogEntry)
    (content : String) (xs : List String) (bad : String) (ys : List String)
    (hsplit : nonemptyLines content = xs ++ bad :: ys)
    (hbad : parse bad = none)
    (hxs : ∀ x ∈ xs, (parse x).isSome)
    (hys : ∀ x ∈ ys, (parse x).isSome) :
    (parseLines parse content).1.length = xs.length + ys.length ∧
    (parseLines parse content).2 =
      ["[Audit] Failed to parse log line: " ++ bad] := by
  constructor
  · simp only [parseLines, hsplit, List.filterMap_append, List.filterMap_cons,
      hbad, List.length_append]
    rw [filterMap_length_all_some parse xs hxs,
      filterMap_length_all_some parse ys hys]
  · simp only [parseLines, hsplit, List.filter_append, List.filter_cons, hbad]
    rw [filter_none_nil parse xs hxs, filter_none_nil parse ys hys]
    simp

theorem c5_corrupt_line_tolerance_witness :
    (parseLines demoParse "A\nzz\nB").1.length =
      (["A"] : List String).length + (["B"] : List String).length ∧
    (parseLines demoParse "A\nzz\nB").2 =
      ["[Audit] Failed to parse log line: " ++ "zz"] :=
  c5_corrupt_line_tolerance demoParse "A\nzz\nB" ["A"] "zz" ["B"] (by rfl)
    (by rfl) (by decide) (by decide)

theorem collectFiles_error_of_included (parse : String → Option AuditLogEntry)
    (startD endD : Option String) :
    ∀ (pre : List (String × Except String String)) (name msg : String)
      (rest : List (String × Except String String)),
      (∀ fc ∈ pre, includedB startD endD fc.1 = true →
        ∃ body, fc.2 = Except.ok body) →
      includedB startD endD name = true →
      collectFiles parse startD endD
          (pre ++ (name, Except.error msg) :: rest) =
        Except.error msg := by
  intro pre
  induction pre with
  | nil =>
    intro name msg rest _ hinc
    simp only [List.nil_append, collectFiles]
    rw [if_pos hinc]
  | cons fc pre ih =>
    intro name msg rest hpre hinc
    obtain ⟨n, content⟩ := fc
    simp only [List.cons_append, collectFiles]
    by_cases hfc : includedB startD endD n = true
    · obtain ⟨body, hbody⟩ :=
        hpre (n, content) (List.mem_cons_self _ _) hfc
      simp only at hbody
      subst hbody
      rw [if_pos hfc]
      have hrec := ih name msg rest
        (fun fc2 hfc2 => hpre fc2 (List.mem_cons_of_mem _ hfc2)) hinc
      simp only [List.append_eq]
      rw [hrec]
    · rw [if_neg hfc]
      exact ih name msg rest
        (fun fc2 hfc2 => hpre fc2 (List.mem_cons_of_mem _ hfc2)) hinc

/-- C6 counterexample: with one included file unreadable and a later
included file readable and holding a parseable entry, the reader returns
the error — not the entries of the readable file. -/
theorem c6_unreadable_file_aborts_counterexample :
    readAuditLogs demoParse
        [("audit-2024-01-01.json", Except.error "EACCES"),
         ("audit-2024-01-02.json", Except.ok "A")] none none =
      Except.error "EACCES" ∧
    (parseLines demoParse "A").1 = [entryA] := ⟨rfl, rfl⟩

/-- C6 as amended: when an enumerated daily log file inside the range is
unreadable (and every included file listed before it was readable), the
whole read aborts with that error: nothing is recovered per-file and no
entries from the remaining files are returned; the caller receives the
error. -/
theorem c6_unreadable_file_aborts (parse : String → Option AuditLogEntry)
    (startD endD : Option String)
    (pre : List (String × Except String String)) (name msg : String)
    (rest : List (String × Except String String))
    (hpre : ∀ fc ∈ pre, includedB startD endD fc.1 = true →
      ∃ body, fc.2 = Except.ok body)
    (hinc : includedB startD endD name = true) :
    readAuditLogs parse (pre ++ (name, Except.error msg) :: rest) startD
        endD = Except.error msg := by
  unfold readAuditLogs
  rw [collectFiles_error_of_included parse startD endD pre name msg rest hpre
    hinc]

theorem c6_unreadable_file_aborts_witness :
    readAuditLogs demoParse
        ([("notes.txt", Except.ok "A")] ++
          ("audit-2024-01-01.json", Except.error "EIO") ::
            [("audit-2024-01-02.json", Except.ok "A")]) none none =
      Except.error "EIO" :=
  c6_unreadable_file_aborts demoParse none none [("notes.txt", Except.ok "A")]
    "audit-2024-01-01.json" "EIO" [("audit-2024-01-02.json", Except.ok "A")]
    (by
      intro fc hfc hinc
      simp only [List.mem_singleton] at hfc
      subst hfc
      exact ⟨"A", rfl⟩)
    (by decide)

theorem fetched_eq_stored (c : CharacterRow) (k : String)
    (h : k ≠ "experience") : fetchedCurrent c k = storedField c k := by
  unfold fetchedCurrent storedField
  split_ifs <;> simp_all

/-- C7 counterexample: a PATCH body supplying `experience` with a value
equal to the stored one still produces a `changes` key for it, and its
`from` component is `undefined` (the prior-value fetch omits
`experience`), not the stored prior value.  The character used stores
`experience = 100`. -/
def demoCharacter : CharacterRow :=
  { name := "Hero", level := 5, experience := 100, gold := 10, coins := 0,
    honor := 0, stamina := 50, health := 100, isPremium := false }

theorem c7_character_diff_counterexample :
    computeChanges (fetchedCurrent demoCharacter)
        [("experience", JsonValue.num 100)] =
      [("experience", none, JsonValue.num 100)] ∧
    storedField demoCharacter "experience" = some (JsonValue.num 100) :=
  ⟨rfl, rfl⟩

/-- C7 as amended: for every supplied field other than `experience` (the
fields covered by the prior-value fetch of the handler), the `changes` map contains
exactly the keys whose supplied value differs from the stored value, each
mapped to the stored prior value and the supplied new value, and nothing
else. -/
theorem c7_character_diff_amended (c : CharacterRow)
    (data : List (String × JsonValue))
    (hkeys : ∀ kv ∈ data, kv.1 ∈ updatableKeys ∧ kv.1 ≠ "experience") :
    ∀ k fr tv, (k, fr, tv) ∈ computeChanges (fetchedCurrent c) data ↔
      ((k, tv) ∈ data ∧ storedField c k ≠ some tv ∧ fr = storedField c k) := by
  intro k fr tv
  constructor
  · intro hmem
    simp only [computeChanges, List.mem_filterMap] at hmem
    obtain ⟨kv, hkv, hif⟩ := hmem
    by_cases hne : fetchedCurrent c kv.1 ≠ some kv.2
    · rw [if_pos hne] at hif
      simp only [Option.some.injEq, Prod.mk.injEq] at hif
      obtain ⟨hk, hfr, htv⟩ := hif
      have hst := fetched_eq_stored c kv.1 (hkeys kv hkv).2
      subst hk
      refine ⟨?_, ?_, ?_⟩
      · have : kv = (kv.1, tv) := by rw [← htv]
        rw [← this]; exact hkv
      · rw [← hst, ← htv]; exact hne
      · rw [← hfr, hst]
    · rw [if_neg hne] at hif
      exact absurd hif (by simp)
  · intro hyp
    obtain ⟨hmem, hne, hfr⟩ := hyp
    have hst := fetched_eq_stored c k (hkeys (k, tv) hmem).2
    simp only [computeChanges, List.mem_filterMap]
    refine ⟨(k, tv), hmem, ?_⟩
    rw [if_pos (by rw [hst]; exact hne)]
    rw [hst, ← hfr]

theorem c7_character_diff_amended_witness :
    ("level", some (JsonValue.num 5), JsonValue.num 6) ∈
      computeChanges (fetchedCurrent demoCharacter)
        [("level", JsonValue.num 6)] :=
  ((c7_character_diff_amended demoCharacter [("level", JsonValue.num 6)]
      (by
        intro kv hkv
        simp only [List.mem_singleton] at hkv
        subst hkv
        exact ⟨by decide, by decide⟩))
    "level" (some (JsonValue.num 5)) (JsonValue.num 6)).2
    ⟨by decide, by decide, by decide⟩

/-- C8: what the PATCH `/items/:id` handler actually records — every
supplied key is mapped to the constant placeholder "N/A" as its `from`
component, which differs from the real prior stored value of the item (here
"OldName"). -/
theorem c8_item_changes_placeholder :
    itemChanges [("name", JsonValue.str "NewName")] =
      [("name", some (JsonValue.str "N/A"), JsonValue.str "NewName")] ∧
    some (JsonValue.str "N/A") ≠ some (JsonValue.str "OldName") :=
  ⟨rfl, by decide⟩

/-- C9: with both credentials present and nonempty, the login handler
responds with the issued token and the username of the user and records a
LOGIN_SUCCESS entry under that username when validation succeeds; when
validation fails it responds 401 and records a LOGIN_FAILED entry whose
admin field is "anonymous"; and the Auth Gate itself never touches the
audit world. -/
theorem c9_login_handler_audit (validate : String → String → Bool)
    (gen : String → String) (enabled : Option String)
    (ser : AuditLogEntry → String) (faults : Faults) (now u p : String)
    (req : LoginReq) (w : FsWorld)
    (hu : req.username = some u) (hp : req.password = some p)
    (hu0 : u ≠ "") (hp0 : p ≠ "") :
    (validate u p = true →
      loginHandler validate gen enabled ser faults now req w =
        (LoginRes.success (gen u) u,
         logAuditAction enabled ser faults now u "LOGIN_SUCCESS"
           (some { ip := some (jsOr req.ip "unknown") }) w) ∧
      (mkAuditEntry now u "LOGIN_SUCCESS"
        (some { ip := some (jsOr req.ip "unknown") })).admin = u ∧
      (mkAuditEntry now u "LOGIN_SUCCESS"
        (some { ip := some (jsOr req.ip "unknown") })).action =
        "LOGIN_SUCCESS") ∧
    (validate u p = false →
      loginHandler validate gen enabled ser faults now req w =
        (LoginRes.unauthorized,
         logAuditAction enabled ser faults now "anonymous" "LOGIN_FAILED"
           (some { metadata := some [("username", JsonValue.str u)],
                   ip := some (jsOr req.ip "unknown") }) w) ∧
      (mkAuditEntry now "anonymous" "LOGIN_FAILED"
        (some { metadata := some [("username", JsonValue.str u)],
                ip := some (jsOr req.ip "unknown") })).admin = "anonymous" ∧
      (mkAuditEntry now "anonymous" "LOGIN_FAILED"
        (some { metadata := some [("username", JsonValue.str u)],
                ip := some (jsOr req.ip "unknown") })).action =
        "LOGIN_FAILED") ∧
    (∀ (verify : String → Option String) (token : Option String)
       (w2 : FsWorld), (authGate verify token w2).2 = w2) := by
  refine ⟨?_, ?_, ?_⟩
  · intro hv
    refine ⟨?_, rfl, rfl⟩
    simp [loginHandler, hu, hp, hu0, hp0, hv]
  · intro hv
    refine ⟨?_, rfl, rfl⟩
    simp [loginHandler, hu, hp, hu0, hp0, hv]
  · intro verify token w2
    cases token <;> rfl

/-- The concrete credential check used by the C9 witness. -/
def demoValidate : String → String → Bool := fun u p => u = "root" && p = "pw"

/-- The concrete token generator used by the C9 witness. -/
def demoGen : String → String := fun u => "tok-" ++ u

/-- The concrete login request used by the C9 witness. -/
def demoLoginReq : LoginReq :=
  { username := some "root", password := some "pw", ip := some "1.2.3.4" }

theorem c9_login_handler_audit_witness :
    loginHandler demoValidate demoGen (some "true") demoSer ⟨false, false⟩
        "2024-01-03T00:00:00.000Z" demoLoginReq demoWorld =
      (LoginRes.success (demoGen "root") "root",
       logAuditAction (some "true") demoSer ⟨false, false⟩
         "2024-01-03T00:00:00.000Z" "root" "LOGIN_SUCCESS"
         (some { ip := some (jsOr demoLoginReq.ip "unknown") }) demoWorld) :=
  (((c9_login_handler_audit demoValidate demoGen (some "true") demoSer
      ⟨false, false⟩ "2024-01-03T00:00:00.000Z" "root" "pw" demoLoginReq
      demoWorld rfl rfl (by decide) (by decide)).1) (by decide)).1

/-- A middleware stage is the generic audit interceptor. -/
def MW.usesInterceptor : MW → Bool
  | MW.audit _ => true
  | MW.auth => false

/-- C10: in the shipped route wiring, no registration attaches the generic
audit interceptor — every attached middleware is the auth gate — and the
gate leaves the audit world untouched, so no interceptor-generated entry
is ever produced; recorded entries come only from explicit
`logAuditAction` calls in handlers. -/
theorem c10_no_interceptor_in_wiring :
    (routerWiring.all (fun r => r.2.all (fun m => !(MW.usesInterceptor m)))) =
      true ∧
    ∀ (verify : String → Option String) (token : Option String)
      (w : FsWorld), (authGate verify token w).2 = w := by
  refine ⟨by decide, ?_⟩
  intro verify token w
  cases token <;> rfl
